import Mathlib

/-!
# Verification of the StellarJS security pipeline

A shallow embedding, in Lean 4, of the security-relevant parts of the
StellarJS repository:

* the token-bucket rate limiter (`TokenBucket` in the middleware utilities),
* the recursive input sanitizer (`sanitizeObject` / `sanitizeString` in
  `src/server/middleware.ts`),
* the CORS middleware (`createCorsMiddleware` in `src/server/database.ts`),
* the audit subsystem (`InMemoryAuditStorage.query`, `AuditLogger.log`,
  `sanitizeSensitiveFields` in `src/server/audit.ts`).

JavaScript strings are modelled as `List Char`, JavaScript numbers as `Rat`
(for the token bucket, whose arithmetic is fractional) or `Int`/`Nat`
(timestamps, pagination counters), promises returning `T` that may reject
as `Except String T`, and JSON-like values as the inductive type `JVal`.
JavaScript object-key assignment (`o[k] = v`, which overwrites in place or
appends a fresh key) is modelled by `insertAssign` on association lists.
-/

/-! ## TokenBucket (middleware utilities)

```ts
export class TokenBucket {
  private tokens: number;
  private lastRefill: number;
  constructor(private capacity: number, private refillRate: number,
              private initialTokens: number = capacity) {
    this.tokens = initialTokens;
    this.lastRefill = Date.now();
  }
  consume(tokens = 1): boolean {
    this.refill();
    if (this.tokens >= tokens) { this.tokens -= tokens; return true; }
    return false;
  }
  private refill(): void {
    const now = Date.now();
    const timePassed = (now - this.lastRefill) / 1000; // seconds
    const tokensToAdd = timePassed * this.refillRate;
    this.tokens = Math.min(this.capacity, this.tokens + tokensToAdd);
    this.lastRefill = now;
  }
}
```

Wall-clock reads (`Date.now()`) are made explicit `now` arguments.
-/

structure TokenBucket where
  capacity : Rat
  refillRate : Rat
  tokens : Rat
  lastRefill : Rat
deriving DecidableEq, Repr

/-- The `TokenBucket` constructor body: `this.tokens = initialTokens;
`this.lastRefill = Date.now()`. -/
def TokenBucket.init (capacity refillRate initialTokens now : Rat) : TokenBucket :=
  { capacity := capacity, refillRate := refillRate,
    tokens := initialTokens, lastRefill := now }

/-- The `TokenBucket` constructor, with an `Except` result type so that the
presence or absence of a thrown error is observable.  The TS constructor
body contains no validation and no `throw`, so every construction
succeeds. -/
def TokenBucket.construct (capacity refillRate initialTokens now : Rat) :
    Except String TokenBucket :=
  Except.ok (TokenBucket.init capacity refillRate initialTokens now)

/-- The method `TokenBucket.refill`. -/
def TokenBucket.refill (b : TokenBucket) (now : Rat) : TokenBucket :=
  { b with
    tokens := min b.capacity (b.tokens + (now - b.lastRefill) / 1000 * b.refillRate),
    lastRefill := now }

/-- The method `TokenBucket.consume`: refill, then consume `cost` tokens if available.
Returns the boolean result together with the updated bucket state. -/
def TokenBucket.consume (b : TokenBucket) (cost : Rat) (now : Rat) :
    Bool × TokenBucket :=
  let r := b.refill now
  if cost ≤ r.tokens then (true, { r with tokens := r.tokens - cost })
  else (false, r)

/-- Claim C1. For every bucket state and every call to `consume(cost)` at time
`now`: the bucket first adds `(now - lastRefill)/1000 × refillRate` tokens,
capped at `capacity` (so the refilled count never exceeds `capacity`
regardless of elapsed time), and sets `lastRefill` to `now`; then, if the
refilled count is at least `cost`, it subtracts `cost` and returns `true`,
otherwise it returns `false` and leaves the (refilled) token count
unchanged.  `capacity` and `refillRate` are untouched. -/
theorem tokenBucket_consume_spec (b : TokenBucket) (cost now : Rat) :
    let refilled := min b.capacity (b.tokens + (now - b.lastRefill) / 1000 * b.refillRate)
    let r := b.consume cost now
    refilled ≤ b.capacity ∧
    r.2.lastRefill = now ∧
    r.2.capacity = b.capacity ∧
    r.2.refillRate = b.refillRate ∧
    (if cost ≤ refilled then r.1 = true ∧ r.2.tokens = refilled - cost
     else r.1 = false ∧ r.2.tokens = refilled) := by
  refine ⟨min_le_left _ _, ?_⟩
  unfold TokenBucket.consume TokenBucket.refill
  dsimp only
  split <;> simp_all

/-- Claim C7. The `TokenBucket` constructor performs no validation: building a
bucket with capacity `0` (a non-positive capacity) raises no error, and the
misconfiguration surfaces only at request time — a later `consume(1)` call
(here 5 seconds later, with refill rate 1 token/second) simply returns
`false`, because refill caps the token count at the capacity `0`. -/
theorem tokenBucket_construct_no_validation :
    TokenBucket.construct 0 1 0 0 = Except.ok (TokenBucket.init 0 1 0 0) ∧
    ((TokenBucket.init 0 1 0 0).consume 1 5000).1 = false ∧
    ((TokenBucket.init 0 1 0 0).consume 1 5000).2.tokens = 0 := by
  refine ⟨rfl, ?_, ?_⟩ <;>
    norm_num [TokenBucket.consume, TokenBucket.refill, TokenBucket.init]

/-! ## JSON-like values

`JVal` models the trees handled by the sanitizer and the audit redactor:
JavaScript `null`, booleans, numbers, strings, arrays, and plain objects
(association lists of string keys, in property order). -/

abbrev JStr := List Char

inductive JVal where
  | null
  | bool (b : Bool)
  | num (n : Int)
  | str (s : JStr)
  | arr (items : List JVal)
  | obj (entries : List (JStr × JVal))

instance : Inhabited JVal := ⟨JVal.null⟩

/-- JavaScript object-key assignment `o[k] = v`: if `k` is already a key, the
value is overwritten in place (the key keeps its original position);
otherwise the pair is appended. -/
def insertAssign (m : List (JStr × JVal)) (k : JStr) (v : JVal) :
    List (JStr × JVal) :=
  match m with
  | [] => [(k, v)]
  | (k', v') :: rest =>
      if k' = k then (k', v) :: rest else (k', v') :: insertAssign rest k v

/-! ## Input sanitizer (`src/server/middleware.ts`)

```ts
const sanitizeString = (str: string): string => {
  if (!str) return str;
  str = str.replace(/\0/g, '');   // remove null bytes
  str = validator.escape(str);    // escape HTML entities (basic)
  str = validator.trim(str);      // trim whitespace
  return str;
};
```
-/

/-- The step `str.replace(/\0/g, '')`: remove NUL bytes. -/
def stripNulls (s : JStr) : JStr := s.filter (fun c => c ≠ '\x00')

/-- Modelled from the spec: `validator.escape` is an external library
function; per the spec it HTML-entity-escapes the five characters
`& < > " '`. -/
def escapeChar (c : Char) : JStr :=
  if c = '&' then "&amp;".toList
  else if c = '<' then "&lt;".toList
  else if c = '>' then "&gt;".toList
  else if c = '"' then "&quot;".toList
  else if c = '\'' then "&#x27;".toList
  else [c]

def escapeHtml (s : JStr) : JStr := s.flatMap escapeChar

/-- Modelled from the spec: `validator.trim` is an external library function
trimming leading and trailing whitespace; the whitespace class is modelled
by the ASCII whitespace characters. -/
def isJsSpace (c : Char) : Bool :=
  c = ' ' || c = '\t' || c = '\n' || c = '\r' || c = '\x0b' || c = '\x0c'

def trimStr (s : JStr) : JStr :=
  ((s.dropWhile isJsSpace).reverse.dropWhile isJsSpace).reverse

/-- The function `sanitizeString`: the empty string is falsy and returned unchanged;
otherwise strip NUL bytes, escape HTML entities, trim whitespace. -/
def sanitizeString (s : JStr) : JStr :=
  if s = [] then s else trimStr (escapeHtml (stripNulls s))

/-! ```ts
const sanitizeObject = (obj: any): any => {
  if (obj === null || obj === undefined) return obj;
  if (Array.isArray(obj)) return obj.map((item) => sanitizeObject(item));
  if (typeof obj === 'object') {
    const sanitized: any = {};
    for (const key in obj)
      if (Object.prototype.hasOwnProperty.call(obj, key)) {
        const sanitizedKey = sanitizeString(key);
        sanitized[sanitizedKey] = sanitizeObject(obj[key]);
      }
    return sanitized;
  }
  if (typeof obj === 'string') return sanitizeString(obj);
  return obj;
};
```
The `for (const key in obj)` loop is modelled by `sanitizeEntries`, which
threads the accumulator object `sanitized` through `insertAssign`. -/

mutual

def sanitizeObject : JVal → JVal
  | .null => .null
  | .arr items => .arr (sanitizeArr items)
  | .obj entries => .obj (sanitizeEntries entries [])
  | .str s => .str (sanitizeString s)
  | .bool b => .bool b
  | .num n => .num n

def sanitizeArr : List JVal → List JVal
  | [] => []
  | v :: rest => sanitizeObject v :: sanitizeArr rest

def sanitizeEntries : List (JStr × JVal) → List (JStr × JVal) →
    List (JStr × JVal)
  | [], acc => acc
  | (k, v) :: rest, acc =>
      sanitizeEntries rest (insertAssign acc (sanitizeString k) (sanitizeObject v))

end

/-- Claim C9. Key sanitization can merge map entries: the object
`\x7b "a\0": "x", "a": "y" \x7d` has two distinct keys that both sanitize to
`"a"`, and its sanitized form is the one-entry object `\x7b "a": "y" \x7d`
holding only the value of the later-enumerated key, so data was dropped. -/
theorem sanitizeObject_merges_colliding_keys :
    (['a', '\x00'] : JStr) ≠ ['a'] ∧
    sanitizeString ['a', '\x00'] = sanitizeString ['a'] ∧
    sanitizeObject (.obj [(['a', '\x00'], .str ['x']), (['a'], .str ['y'])]) =
      .obj [(['a'], .str ['y'])] ∧
    ([(['a', '\x00'], JVal.str ['x']), (['a'], JVal.str ['y'])].length = 2 ∧
      [(['a'], JVal.str ['y'])].length = 1) :=
  ⟨by decide, by decide, rfl, rfl, rfl⟩

/-- Claim C2, counterexample. Sanitization is not idempotent: on the one-string
tree `"&"`, the first pass produces `"&amp;"` and the second pass escapes the
ampersand of the entity again, producing `"&amp;amp;"`. -/
theorem sanitizeObject_not_idempotent :
    sanitizeObject (.str ['&']) = .str "&amp;".toList ∧
    sanitizeObject (sanitizeObject (.str ['&'])) = .str "&amp;amp;".toList ∧
    sanitizeObject (sanitizeObject (.str ['&'])) ≠ sanitizeObject (.str ['&']) := by
  have h1 : sanitizeObject (.str ['&']) = .str "&amp;".toList := rfl
  have h2 : sanitizeObject (sanitizeObject (.str ['&'])) = .str "&amp;amp;".toList := rfl
  refine ⟨h1, h2, fun h => ?_⟩
  rw [h2, h1] at h
  injection h with h'
  exact absurd h' (by decide)

/-! ### Idempotence of sanitization on escape-free trees

A second sanitization pass re-escapes the `&` of entities introduced by the
first pass (see `sanitizeObject_not_idempotent`), so idempotence only holds
for trees whose strings contain none of the five escaped characters. -/

/-- The five characters that `validator.escape` rewrites. -/
def escapable (c : Char) : Bool :=
  c = '&' || c = '<' || c = '>' || c = '"' || c = '\''

/-- A string none of whose characters get escaped. -/
def cleanStr (s : JStr) : Bool := s.all (fun c => !escapable c)

mutual

def cleanVal : JVal → Bool
  | .str s => cleanStr s
  | .arr items => cleanList items
  | .obj entries => cleanEntries entries
  | _ => true

def cleanList : List JVal → Bool
  | [] => true
  | v :: rest => cleanVal v && cleanList rest

def cleanEntries : List (JStr × JVal) → Bool
  | [] => true
  | (k, v) :: rest => cleanStr k && cleanVal v && cleanEntries rest

end

theorem escapeChar_eq_self {c : Char} (h : escapable c = false) :
    escapeChar c = [c] := by
  simp only [escapable, Bool.or_eq_false_iff, decide_eq_false_iff_not] at h
  obtain ⟨⟨⟨⟨h1, h2⟩, h3⟩, h4⟩, h5⟩ := h
  simp [escapeChar, h1, h2, h3, h4, h5]

theorem escapeHtml_eq_self {s : JStr} (h : ∀ c ∈ s, escapable c = false) :
    escapeHtml s = s := by
  induction s with
  | nil => rfl
  | cons c t ih =>
      simp only [escapeHtml, List.flatMap_cons] at *
      rw [escapeChar_eq_self (h c (by simp)), ih (fun d hd => h d (by simp [hd]))]
      rfl

theorem trimStr_eq (s : JStr) :
    trimStr s = List.rdropWhile isJsSpace (List.dropWhile isJsSpace s) := rfl

theorem sublist_trimStr (s : JStr) : List.Sublist (trimStr s) s := by
  rw [trimStr_eq]
  exact ((List.rdropWhile_prefix _ _).sublist).trans
    (List.dropWhile_suffix _).sublist

theorem trimStr_idem (s : JStr) : trimStr (trimStr s) = trimStr s := by
  rw [trimStr_eq s]
  set u := List.dropWhile isJsSpace s with hu
  set t := List.rdropWhile isJsSpace u with ht
  have hdrop : List.dropWhile isJsSpace t = t := by
    rw [List.dropWhile_eq_self_iff]
    intro hl
    have pre : List.IsPrefix t u := List.rdropWhile_prefix isJsSpace u
    have hul : 0 < u.length := lt_of_lt_of_le hl pre.length_le
    have hu_self : List.dropWhile isJsSpace u = u := by
      rw [hu]
      exact List.dropWhile_idempotent _ _
    have hnot := List.dropWhile_eq_self_iff.mp hu_self hul
    have hgeteq := pre.getElem hl
    simp only [List.get_eq_getElem] at hnot ⊢
    simpa only [← hgeteq] using hnot
  rw [trimStr_eq, hdrop, ht, List.rdropWhile_idempotent]

theorem cleanStr_mem {s : JStr} (h : cleanStr s = true) :
    ∀ c ∈ s, escapable c = false := by
  intro c hc
  have := List.all_eq_true.mp h c hc
  simpa using this

theorem sanitizeString_fixed {s : JStr} (h : cleanStr s = true) :
    sanitizeString (sanitizeString s) = sanitizeString s := by
  have hmem := cleanStr_mem h
  by_cases hs : s = []
  · subst hs; rfl
  · have hstrip_mem : ∀ c ∈ stripNulls s, escapable c = false ∧ c ≠ '\x00' := by
      intro c hc
      rw [stripNulls, List.mem_filter] at hc
      exact ⟨hmem c hc.1, by simpa using hc.2⟩
    have hone : sanitizeString s = trimStr (stripNulls s) := by
      rw [sanitizeString, if_neg hs,
        escapeHtml_eq_self (fun c hc => (hstrip_mem c hc).1)]
    rw [hone]
    set t := trimStr (stripNulls s) with htdef
    by_cases htn : t = []
    · rw [sanitizeString, if_pos htn]
    · rw [sanitizeString, if_neg htn]
      have htmem : ∀ c ∈ t, escapable c = false ∧ c ≠ '\x00' := by
        intro c hc
        exact hstrip_mem c ((sublist_trimStr _).mem hc)
      have hstript : stripNulls t = t := by
        rw [stripNulls, List.filter_eq_self]
        intro c hc
        simpa using (htmem c hc).2
      rw [hstript, escapeHtml_eq_self (fun c hc => (htmem c hc).1), htdef,
        trimStr_idem]

/-- The keys of an association-list object, in property order. -/
def keysOf (m : List (JStr × JVal)) : List JStr := m.map Prod.fst

theorem mem_keys_insertAssign (k : JStr) (v : JVal) :
    ∀ (m : List (JStr × JVal)) (x : JStr),
      x ∈ keysOf (insertAssign m k v) → x ∈ keysOf m ∨ x = k := by
  intro m
  induction m with
  | nil =>
      intro x hx
      right
      simpa [insertAssign, keysOf] using hx
  | cons p rest ih =>
      obtain ⟨k0, v0⟩ := p
      intro x hx
      simp only [insertAssign] at hx
      split at hx
      · left
        simpa [keysOf] using hx
      · simp only [keysOf, List.map_cons, List.mem_cons] at hx ⊢
        rcases hx with rfl | hx
        · exact Or.inl (Or.inl rfl)
        · rcases ih x (by simpa [keysOf] using hx) with h1 | h1
          · exact Or.inl (Or.inr (by simpa [keysOf] using h1))
          · exact Or.inr h1

theorem insertAssign_append :
    ∀ (m : List (JStr × JVal)) (k : JStr) (v : JVal),
      k ∉ keysOf m → insertAssign m k v = m ++ [(k, v)] := by
  intro m
  induction m with
  | nil => intro k v _; rfl
  | cons p rest ih =>
      obtain ⟨k0, v0⟩ := p
      intro k v hk
      simp only [keysOf, List.map_cons, List.mem_cons, not_or] at hk
      simp only [insertAssign]
      rw [if_neg (fun h => hk.1 h.symm)]
      simp [ih k v (by simpa [keysOf] using hk.2)]

/-- A sanitization fixed-point object: keys pairwise distinct, every key a
fixed point of `sanitizeString`, every value a fixed point of
`sanitizeObject`. -/
def goodMap (m : List (JStr × JVal)) : Prop :=
  (keysOf m).Nodup ∧ ∀ p ∈ m, sanitizeString p.1 = p.1 ∧ sanitizeObject p.2 = p.2

theorem insertAssign_good :
    ∀ (m : List (JStr × JVal)) (k : JStr) (v : JVal),
      goodMap m → sanitizeString k = k → sanitizeObject v = v →
      goodMap (insertAssign m k v) := by
  intro m
  induction m with
  | nil =>
      intro k v _ hk hv
      refine ⟨by simp [insertAssign, keysOf], ?_⟩
      intro p hp
      simp only [insertAssign, List.mem_singleton] at hp
      subst hp
      exact ⟨hk, hv⟩
  | cons p0 rest ih =>
      obtain ⟨k0, v0⟩ := p0
      intro k v hm hk hv
      obtain ⟨hnd, helem⟩ := hm
      have hnd' := List.nodup_cons.mp (show ((_ : JStr) :: List.map Prod.fst _).Nodup by
        simpa only [keysOf, List.map_cons] using hnd)
      have hrest : goodMap rest :=
        ⟨hnd'.2, fun p hp => helem p (List.mem_cons_of_mem _ hp)⟩
      simp only [insertAssign]
      split
      · refine ⟨by simpa [keysOf, List.nodup_cons] using hnd', ?_⟩
        intro p hp
        rcases List.mem_cons.mp hp with rfl | hp2
        · exact ⟨(helem (k0, v0) (List.mem_cons_self _ _)).1, hv⟩
        · exact helem p (List.mem_cons_of_mem _ hp2)
      · rename_i hne
        have hgood2 := ih k v hrest hk hv
        refine ⟨?_, ?_⟩
        · simp only [keysOf, List.map_cons, List.nodup_cons]
          refine ⟨?_, by simpa [keysOf] using hgood2.1⟩
          intro hcon
          rcases mem_keys_insertAssign k v rest k0 (by simpa [keysOf] using hcon)
            with h1 | h1
          · exact hnd'.1 (by simpa [keysOf] using h1)
          · exact hne h1
        · intro p hp
          rcases List.mem_cons.mp hp with rfl | hp2
          · exact helem (k0, v0) (List.mem_cons_self _ _)
          · exact hgood2.2 p hp2

theorem sanitizeEntries_good :
    ∀ (l acc : List (JStr × JVal)),
      (∀ p ∈ l, sanitizeString (sanitizeString p.1) = sanitizeString p.1 ∧
        sanitizeObject (sanitizeObject p.2) = sanitizeObject p.2) →
      goodMap acc → goodMap (sanitizeEntries l acc) := by
  intro l
  induction l with
  | nil => intro acc _ h; simpa [sanitizeEntries] using h
  | cons p rest ih =>
      obtain ⟨k, v⟩ := p
      intro acc hl hacc
      simp only [sanitizeEntries]
      exact ih _ (fun q hq => hl q (List.mem_cons_of_mem _ hq))
        (insertAssign_good acc (sanitizeString k) (sanitizeObject v) hacc
          (hl (k, v) (List.mem_cons_self _ _)).1
          (hl (k, v) (List.mem_cons_self _ _)).2)

theorem sanitizeEntries_of_fixed :
    ∀ (l acc : List (JStr × JVal)),
      (keysOf l).Nodup →
      (∀ p ∈ l, sanitizeString p.1 = p.1 ∧ sanitizeObject p.2 = p.2) →
      (∀ x ∈ keysOf l, x ∉ keysOf acc) →
      sanitizeEntries l acc = acc ++ l := by
  intro l
  induction l with
  | nil => intro acc _ _ _; simp [sanitizeEntries]
  | cons p rest ih =>
      obtain ⟨k, v⟩ := p
      intro acc hnd hfix hdisj
      have hk : sanitizeString k = k := (hfix (k, v) (List.mem_cons_self _ _)).1
      have hv : sanitizeObject v = v := (hfix (k, v) (List.mem_cons_self _ _)).2
      have hnd2 := List.nodup_cons.mp (show ((_ : JStr) :: List.map Prod.fst _).Nodup by
        simpa only [keysOf, List.map_cons] using hnd)
      have hdisj' : ∀ x ∈ keysOf rest, x ∉ keysOf (acc ++ [(k, v)]) := by
        intro x hx hcon
        have hxa : x ∉ keysOf acc :=
          hdisj x (by simp [keysOf] at hx ⊢; exact Or.inr hx)
        simp only [keysOf, List.map_append, List.mem_append] at hcon
        rcases hcon with h1 | h1
        · exact hxa (by simpa [keysOf] using h1)
        · simp only [List.map_cons, List.map_nil, List.mem_singleton] at h1
          subst h1
          exact hnd2.1 (by simpa [keysOf] using hx)
      simp only [sanitizeEntries, hk, hv]
      rw [insertAssign_append acc k v (hdisj k (by simp [keysOf]))]
      rw [ih (acc ++ [(k, v)]) hnd2.2
        (fun q hq => hfix q (List.mem_cons_of_mem _ hq)) hdisj']
      simp

theorem sanitizeEntries_of_good (l : List (JStr × JVal)) (h : goodMap l) :
    sanitizeEntries l [] = l := by
  have := sanitizeEntries_of_fixed l [] h.1 h.2 (by intro x _; simp [keysOf])
  simpa using this

mutual

theorem sanitizeIdemAux :
    ∀ v : JVal, cleanVal v = true →
      sanitizeObject (sanitizeObject v) = sanitizeObject v
  | .null, _ => rfl
  | .bool _, _ => rfl
  | .num _, _ => rfl
  | .str s, h => by
      have hc : cleanStr s = true := by simpa [cleanVal] using h
      show JVal.str (sanitizeString (sanitizeString s)) = JVal.str (sanitizeString s)
      rw [sanitizeString_fixed hc]
  | .arr items, h => by
      have hc : cleanList items = true := by simpa [cleanVal] using h
      show JVal.arr (sanitizeArr (sanitizeArr items)) = JVal.arr (sanitizeArr items)
      rw [sanitizeArrIdemAux items hc]
  | .obj entries, h => by
      have hc : cleanEntries entries = true := by simpa [cleanVal] using h
      show JVal.obj (sanitizeEntries (sanitizeEntries entries []) []) =
        JVal.obj (sanitizeEntries entries [])
      rw [sanitizeEntries_of_good (sanitizeEntries entries [])
        (sanitizeEntries_good entries []
          (sanitizeEntriesElemAux entries hc)
          ⟨List.nodup_nil, by intro p hp; cases hp⟩)]

theorem sanitizeArrIdemAux :
    ∀ l : List JVal, cleanList l = true →
      sanitizeArr (sanitizeArr l) = sanitizeArr l
  | [], _ => rfl
  | v :: rest, h => by
      have h1 : cleanVal v = true ∧ cleanList rest = true := by
        simpa [cleanList, Bool.and_eq_true] using h
      show sanitizeObject (sanitizeObject v) :: sanitizeArr (sanitizeArr rest) =
        sanitizeObject v :: sanitizeArr rest
      rw [sanitizeIdemAux v h1.1, sanitizeArrIdemAux rest h1.2]

theorem sanitizeEntriesElemAux :
    ∀ l : List (JStr × JVal), cleanEntries l = true →
      ∀ p ∈ l, sanitizeString (sanitizeString p.1) = sanitizeString p.1 ∧
        sanitizeObject (sanitizeObject p.2) = sanitizeObject p.2
  | [], _ => by intro p hp; cases hp
  | (k, v) :: rest, h => by
      have h1 : cleanStr k = true ∧ cleanVal v = true ∧ cleanEntries rest = true := by
        simpa [cleanEntries, Bool.and_eq_true, and_assoc] using h
      intro p hp
      rcases List.mem_cons.mp hp with rfl | hmem
      · exact ⟨sanitizeString_fixed h1.1, sanitizeIdemAux v h1.2.1⟩
      · exact sanitizeEntriesElemAux rest h1.2.2 p hmem

end

/-- Claim C2, amended. Sanitization is idempotent on every SanitizationTree
whose strings (map keys included) contain none of the five escaped
characters `& < > " '`: `sanitizeObject (sanitizeObject x) = sanitizeObject x`
for every such `x`.  On general trees idempotence fails, because the second
pass re-escapes the ampersands of entities introduced by the first pass
(`sanitizeObject_not_idempotent`). -/
theorem sanitizeObject_idempotent_on_clean (v : JVal) (h : cleanVal v = true) :
    sanitizeObject (sanitizeObject v) = sanitizeObject v :=
  sanitizeIdemAux v h

/-- Witness for `sanitizeObject_idempotent_on_clean` at a concrete clean
tree containing whitespace, a NUL byte, an array and a nested object. -/
theorem sanitizeObject_idempotent_on_clean_witness :
    cleanVal (JVal.obj [([' ', 'a'],
      JVal.arr [JVal.str ['b', '\x00', 'c'], JVal.obj [(['d'], JVal.num 7)]])]) = true ∧
    sanitizeObject (sanitizeObject (JVal.obj [([' ', 'a'],
      JVal.arr [JVal.str ['b', '\x00', 'c'], JVal.obj [(['d'], JVal.num 7)]])])) =
      sanitizeObject (JVal.obj [([' ', 'a'],
        JVal.arr [JVal.str ['b', '\x00', 'c'], JVal.obj [(['d'], JVal.num 7)]])]) :=
  ⟨by decide, sanitizeObject_idempotent_on_clean _ (by decide)⟩

/-! ## CORS middleware (`src/server/database.ts`)

```ts
return (req, res, next) => {
  const origin = req.headers.origin;
  const requestMethod = req.method.toUpperCase();
  const checkOrigin = async (): Promise<boolean> => {
    if (config.origins === '*') return true;
    else if (typeof config.origins === 'function') {
      if (!origin) return false;
      const result = config.origins(origin);
      return result instanceof Promise ? await result : result;
    } else if (Array.isArray(config.origins)) {
      return origin ? config.origins.includes(origin) : false;
    }
    return false;
  };
  checkOrigin()
    .then((isOriginAllowed) => { processCorsRequest(isOriginAllowed); })
    .catch(() => { processCorsRequest(false); });
  const processCorsRequest = (isOriginAllowed) => {
    if (isOriginAllowed) { /* set CORS headers */ }
    if (requestMethod === 'OPTIONS') {
      if (isOriginAllowed) res.status(204).end();
      else res.status(403).json(...);
      return;
    }
    if (!isOriginAllowed && origin) { res.status(403).json(...); return; }
    next();
  };
};
```

The missing `Origin` header is `none`; a predicate (sync or async, either
may throw/reject) is `JStr → Except String Bool`. -/

/-- The `origins` field of the CORS configuration: the wildcard `'*'`, a
predicate function, or an allow-list array. -/
inductive OriginsPolicy where
  | all
  | pred (f : JStr → Except String Bool)
  | list (origins : List JStr)

/-- JavaScript truthiness of the `origin` header value: an absent header
(`undefined`) and the empty string are both falsy. -/
def originTruthy : Option JStr → Bool
  | none => false
  | some s => s ≠ []

/-- The `checkOrigin` closure.  An `Except.error` result models a rejected
promise (a thrown predicate exception becomes a rejection of the `async`
function's promise). -/
def checkOrigin (policy : OriginsPolicy) (origin : Option JStr) :
    Except String Bool :=
  match policy with
  | .all => Except.ok true
  | .pred f =>
      if originTruthy origin then f (origin.getD []) else Except.ok false
  | .list origins =>
      if originTruthy origin then Except.ok (origins.contains (origin.getD []))
      else Except.ok false

/-- The chain `checkOrigin().then(processCorsRequest).catch(() =>
processCorsRequest(false))`: the origin-allowed bit that
`processCorsRequest` actually receives — a rejection resolves to `false`. -/
def resolveOrigin (policy : OriginsPolicy) (origin : Option JStr) : Bool :=
  match checkOrigin policy origin with
  | .ok b => b
  | .error _ => false

/-- The externally observable control-flow outcome of `processCorsRequest`
(header side effects are not modelled): a 204 preflight success, a 403
rejection, or a call to the downstream `next` handler. -/
inductive CorsOutcome where
  | noContent
  | forbidden
  | next
deriving DecidableEq, Repr

/-- The test `requestMethod === 'OPTIONS'` after `req.method.toUpperCase()`. -/
def isOptionsMethod (method : JStr) : Bool :=
  method.map Char.toUpper = "OPTIONS".toList

/-- The handler `processCorsRequest`, given the resolved origin-allowed bit. -/
def processCorsRequest (allowed : Bool) (isOptions : Bool)
    (origin : Option JStr) : CorsOutcome :=
  if isOptions then
    if allowed then .noContent else .forbidden
  else if !allowed && originTruthy origin then .forbidden
  else .next

/-- The complete middleware produced by `createCorsMiddleware`, for one
request with the given method and `Origin` header. -/
def corsMiddleware (policy : OriginsPolicy) (method : JStr)
    (origin : Option JStr) : CorsOutcome :=
  processCorsRequest (resolveOrigin policy origin)
    (isOptionsMethod method) origin

/-- Claim C4, counterexample. Under a predicate policy the predicate is *not*
invoked with the empty string when the `Origin` header is absent: with the
constant-`true` predicate, an absent origin resolves to not-allowed even
though the predicate itself maps `""` to `true` — the code returns `false`
without calling the predicate. -/
theorem corsPredicate_not_called_on_absent_origin :
    resolveOrigin (.pred (fun _ => Except.ok true)) none = false ∧
    (fun (_ : JStr) => (Except.ok true : Except String Bool)) [] = Except.ok true :=
  ⟨rfl, rfl⟩

/-- Claim C4, amended. Under a predicate-based origin policy: when the
`Origin` header is absent (or empty, which is equally falsy), the predicate
is not consulted and the origin resolves to not-allowed; when a non-empty
origin is present, the middleware invokes the predicate with exactly that
origin string, and whenever the predicate throws or its promise rejects the
origin resolves to not-allowed (fail closed). -/
theorem corsPredicate_resolution (f : JStr → Except String Bool)
    (origin : Option JStr) :
    resolveOrigin (.pred f) origin =
      match origin with
      | none => false
      | some o =>
          if o = [] then false
          else match f o with
               | .ok b => b
               | .error _ => false := by
  rcases origin with _ | o
  · rfl
  · by_cases ho : o = []
    · simp [resolveOrigin, checkOrigin, originTruthy, ho]
    · simp only [resolveOrigin, checkOrigin, originTruthy]
      rw [if_pos (by simpa using ho)]
      simp only [Option.getD_some]
      split <;> simp [ho]

/-- Claim C8. For every non-OPTIONS request whose `Origin` header is absent,
the CORS middleware calls the downstream handler (`next`) and never sends a
403 — whatever the configured origins policy, including an allow-list under
which the absent origin resolves to not-allowed. -/
theorem cors_absent_origin_non_options_passes (policy : OriginsPolicy)
    (method : JStr) (h : isOptionsMethod method = false) :
    corsMiddleware policy method none = CorsOutcome.next := by
  unfold corsMiddleware processCorsRequest
  rw [h]
  simp [originTruthy]

/-- Witness for `cors_absent_origin_non_options_passes`: a GET request with
no `Origin` header against an allow-list policy (under which the absent
origin is not allowed) still reaches `next`. -/
theorem cors_absent_origin_non_options_passes_witness :
    isOptionsMethod "GET".toList = false ∧
    resolveOrigin (.list ["https://good.com".toList]) none = false ∧
    corsMiddleware (.list ["https://good.com".toList]) "GET".toList none =
      CorsOutcome.next :=
  ⟨by decide, rfl,
    cors_absent_origin_non_options_passes (.list ["https://good.com".toList])
      "GET".toList (by decide)⟩

/-! ## Audit subsystem (`src/server/audit.ts`) -/

/-! ### Sensitive-field redaction

```ts
const sanitizeSensitiveFields = (obj, sensitiveFields = ['password', 'token',
    'secret', 'apiKey']) => {
  if (!obj || typeof obj !== 'object') return obj;
  if (Array.isArray(obj)) return obj.map((item) =>
    sanitizeSensitiveFields(item, sensitiveFields));
  const sanitized = {};
  for (const key in obj)
    if (Object.prototype.hasOwnProperty.call(obj, key)) {
      if (sensitiveFields.some((field) =>
          key.toLowerCase().includes(field.toLowerCase())))
        sanitized[key] = '[REDACTED]';
      else if (typeof obj[key] === 'object')
        sanitized[key] = sanitizeSensitiveFields(obj[key], sensitiveFields);
      else sanitized[key] = obj[key];
    }
  return sanitized;
};
```
-/

def toLowerStr (s : JStr) : JStr := s.map Char.toLower

/-- The needle occurs at the start of the second argument. -/
def startsWithSub : JStr → JStr → Bool
  | [], _ => true
  | _ :: _, [] => false
  | c :: cs, d :: ds => c = d && startsWithSub cs ds

/-- The test `hay.includes(needle)`: substring containment. -/
def containsSub (hay needle : JStr) : Bool :=
  match hay with
  | [] => needle = []
  | c :: t => startsWithSub needle (c :: t) || containsSub t needle

/-- The test `sensitiveFields.some((field) =>
key.toLowerCase().includes(field.toLowerCase()))`. -/
def isSensitiveKey (fields : List JStr) (k : JStr) : Bool :=
  fields.any (fun f => containsSub (toLowerStr k) (toLowerStr f))

/-- The default `sensitiveFields` parameter. -/
def defaultSensitiveFields : List JStr :=
  ["password".toList, "token".toList, "secret".toList, "apiKey".toList]

def redactedMarker : JStr := "[REDACTED]".toList

/-- The test `typeof x === 'object'` holds for objects, arrays and `null`. -/
def isObjectLike : JVal → Bool
  | .obj _ => true
  | .arr _ => true
  | .null => true
  | _ => false

mutual

def sanitizeSensitiveFields (fields : List JStr) : JVal → JVal
  | .null => .null
  | .bool b => .bool b
  | .num n => .num n
  | .str s => .str s
  | .arr items => .arr (sanitizeSensitiveList fields items)
  | .obj entries => .obj (sanitizeSensitiveEntries fields entries [])

def sanitizeSensitiveList (fields : List JStr) : List JVal → List JVal
  | [] => []
  | v :: rest =>
      sanitizeSensitiveFields fields v :: sanitizeSensitiveList fields rest

def sanitizeSensitiveEntries (fields : List JStr) :
    List (JStr × JVal) → List (JStr × JVal) → List (JStr × JVal)
  | [], acc => acc
  | (k, v) :: rest, acc =>
      if isSensitiveKey fields k then
        sanitizeSensitiveEntries fields rest (insertAssign acc k (.str redactedMarker))
      else if isObjectLike v then
        sanitizeSensitiveEntries fields rest
          (insertAssign acc k (sanitizeSensitiveFields fields v))
      else
        sanitizeSensitiveEntries fields rest (insertAssign acc k v)

end

/-! Redaction coverage: everywhere inside the output, the value stored under
a sensitive key is the redaction marker. -/

mutual

def redactedOK (fields : List JStr) : JVal → Prop
  | .obj entries => redactedOKEntries fields entries
  | .arr items => redactedOKList fields items
  | _ => True

def redactedOKList (fields : List JStr) : List JVal → Prop
  | [] => True
  | v :: rest => redactedOK fields v ∧ redactedOKList fields rest

def redactedOKEntries (fields : List JStr) : List (JStr × JVal) → Prop
  | [] => True
  | (k, v) :: rest =>
      (isSensitiveKey fields k = true → v = .str redactedMarker) ∧
      redactedOK fields v ∧ redactedOKEntries fields rest

end

theorem redactedOKEntries_iff (fields : List JStr) :
    ∀ l : List (JStr × JVal), redactedOKEntries fields l ↔
      ∀ p ∈ l, (isSensitiveKey fields p.1 = true → p.2 = .str redactedMarker) ∧
        redactedOK fields p.2 := by
  intro l
  induction l with
  | nil => simp [redactedOKEntries]
  | cons p rest ih =>
      obtain ⟨k, v⟩ := p
      simp only [redactedOKEntries, List.mem_cons, ih]
      constructor
      · rintro ⟨h1, h2, h3⟩ q hq
        rcases hq with rfl | hq
        · exact ⟨h1, h2⟩
        · exact h3 q hq
      · intro h
        exact ⟨(h (k, v) (Or.inl rfl)).1, (h (k, v) (Or.inl rfl)).2,
          fun q hq => h q (Or.inr hq)⟩

theorem mem_insertAssign_prop (P : JStr × JVal → Prop) :
    ∀ (m : List (JStr × JVal)) (k : JStr) (v : JVal),
      (∀ p ∈ m, P p) → P (k, v) → ∀ p ∈ insertAssign m k v, P p := by
  intro m
  induction m with
  | nil =>
      intro k v _ hkv p hp
      simp only [insertAssign, List.mem_singleton] at hp
      subst hp
      exact hkv
  | cons p0 rest ih =>
      obtain ⟨k0, v0⟩ := p0
      intro k v hm hkv p hp
      simp only [insertAssign] at hp
      split at hp
      · rename_i heq
        rcases List.mem_cons.mp hp with rfl | hp2
        · subst heq
          exact hkv
        · exact hm p (List.mem_cons_of_mem _ hp2)
      · rcases List.mem_cons.mp hp with rfl | hp2
        · exact hm (k0, v0) (List.mem_cons_self _ _)
        · exact ih k v (fun q hq => hm q (List.mem_cons_of_mem _ hq)) hkv p hp2

theorem redactedOK_of_not_objectLike (fields : List JStr) (v : JVal)
    (h : isObjectLike v = false) : redactedOK fields v := by
  cases v <;> trivial

theorem sanitizeSensitiveEntries_prop (fields : List JStr) :
    ∀ (l acc : List (JStr × JVal)),
      (∀ p ∈ l, redactedOK fields (sanitizeSensitiveFields fields p.2)) →
      (∀ p ∈ acc, (isSensitiveKey fields p.1 = true → p.2 = .str redactedMarker) ∧
        redactedOK fields p.2) →
      ∀ p ∈ sanitizeSensitiveEntries fields l acc,
        (isSensitiveKey fields p.1 = true → p.2 = .str redactedMarker) ∧
        redactedOK fields p.2 := by
  intro l
  induction l with
  | nil =>
      intro acc _ hacc p hp
      exact hacc p (by simpa [sanitizeSensitiveEntries] using hp)
  | cons q rest ih =>
      obtain ⟨k, v⟩ := q
      intro acc hl hacc p hp
      simp only [sanitizeSensitiveEntries] at hp
      split at hp
      · exact ih _ (fun q hq => hl q (List.mem_cons_of_mem _ hq))
          (mem_insertAssign_prop _ acc k (.str redactedMarker) hacc
            ⟨fun _ => rfl, True.intro⟩) p hp
      · rename_i hsens
        split at hp
        · exact ih _ (fun q hq => hl q (List.mem_cons_of_mem _ hq))
            (mem_insertAssign_prop _ acc k (sanitizeSensitiveFields fields v) hacc
              ⟨fun hcon => absurd hcon hsens, hl (k, v) (List.mem_cons_self _ _)⟩)
            p hp
        · rename_i hobj
          exact ih _ (fun q hq => hl q (List.mem_cons_of_mem _ hq))
            (mem_insertAssign_prop _ acc k v hacc
              ⟨fun hcon => absurd hcon hsens,
                redactedOK_of_not_objectLike fields v (Bool.not_eq_true _ ▸ hobj)⟩)
            p hp

mutual

theorem redactAux :
    ∀ (fields : List JStr) (v : JVal),
      redactedOK fields (sanitizeSensitiveFields fields v)
  | _, .null => True.intro
  | _, .bool _ => True.intro
  | _, .num _ => True.intro
  | _, .str _ => True.intro
  | fields, .arr items => redactListAux fields items
  | fields, .obj entries => by
      show redactedOKEntries fields (sanitizeSensitiveEntries fields entries [])
      rw [redactedOKEntries_iff]
      exact sanitizeSensitiveEntries_prop fields entries []
        (redactElemAux fields entries) (by intro p hp; cases hp)

theorem redactListAux :
    ∀ (fields : List JStr) (l : List JVal),
      redactedOKList fields (sanitizeSensitiveList fields l)
  | _, [] => True.intro
  | fields, v :: rest => ⟨redactAux fields v, redactListAux fields rest⟩

theorem redactElemAux :
    ∀ (fields : List JStr) (l : List (JStr × JVal)),
      ∀ p ∈ l, redactedOK fields (sanitizeSensitiveFields fields p.2)
  | _, [] => fun p hp => absurd hp (List.not_mem_nil p)
  | fields, (k, v) :: rest => by
      intro p hp
      rcases List.mem_cons.mp hp with rfl | hmem
      · exact redactAux fields v
      · exact redactElemAux fields rest p hmem

end

/-- Claim C5. For every request-body tree and every configured sensitive-field
list (the default being password, token, secret, apiKey): in the redacted
output, at every nesting depth inside objects and arrays, the value stored
under a key matching a sensitive-field name as a case-insensitive substring
is the marker `[REDACTED]`, never the original value. -/
theorem sanitizeSensitiveFields_redacts (fields : List JStr) (v : JVal) :
    redactedOK fields (sanitizeSensitiveFields fields v) :=
  redactAux fields v

example :
    sanitizeSensitiveFields defaultSensitiveFields
      (.obj [("password".toList, .str "hunter2".toList),
             ("profile".toList,
              .obj [("myApiKeys".toList, .arr [.str "k1".toList]),
                    ("name".toList, .str "n".toList)])]) =
    .obj [("password".toList, .str redactedMarker),
          ("profile".toList,
           .obj [("myApiKeys".toList, .str redactedMarker),
                 ("name".toList, .str "n".toList)])] := rfl

/-! ### Audit data model and in-memory query

Timestamps (`Date` values) are modelled as `Int` milliseconds; the enum
types `AuditEventType`, `AuditSeverity` and the `result` literal union are
modelled by their string runtime values. -/

structure AuditActor where
  id : Option String
  type : String
  identifier : String
  roles : Option (List String)
deriving DecidableEq, Repr

structure AuditResource where
  type : String
  id : Option String
  name : Option String
deriving DecidableEq, Repr

structure AuditEvent where
  timestamp : Int
  type : String
  severity : String
  actor : AuditActor
  resource : Option AuditResource
  action : String
  result : String
  metadata : Option JVal
  ip : Option String
  userAgent : Option String
  requestId : Option String

structure AuditQueryFilters where
  startDate : Option Int := none
  endDate : Option Int := none
  actorId : Option String := none
  eventType : Option String := none
  severity : Option String := none
  resourceType : Option String := none
  resourceId : Option String := none
  result : Option String := none
  limit : Option Nat := none
  offset : Option Nat := none

/-- JavaScript truthiness of an optional string: absent and `''` are
falsy. -/
def strTruthy : Option String → Bool
  | none => false
  | some s => s ≠ ""

/-- One `if (filters.x) filtered = filtered.filter(...)` step whose filter
value is a `Date` (always truthy when present). -/
def filterIfSome (o : Option Int) (p : Int → AuditEvent → Bool)
    (l : List AuditEvent) : List AuditEvent :=
  match o with
  | some d => l.filter (p d)
  | none => l

/-- One `if (filters.x) filtered = filtered.filter(...)` step whose filter
value is a string (truthiness applies). -/
def filterIfTruthy (o : Option String) (p : AuditEvent → Bool)
    (l : List AuditEvent) : List AuditEvent :=
  if strTruthy o then l.filter p else l

/-- The comparator `(a, b) => b.timestamp.getTime() - a.timestamp.getTime()`: descending
timestamp order. -/
def tsDesc (a b : AuditEvent) : Prop := b.timestamp ≤ a.timestamp

instance : DecidableRel tsDesc := fun a b =>
  inferInstanceAs (Decidable (b.timestamp ≤ a.timestamp))

instance : IsTotal AuditEvent tsDesc := ⟨fun a b => le_total b.timestamp a.timestamp⟩

instance : IsTrans AuditEvent tsDesc := ⟨fun _ _ _ h1 h2 => le_trans h2 h1⟩

/-!
```ts
async query(filters: AuditQueryFilters): Promise<AuditEvent[]> {
  let filtered = [...this.events];
  if (filters.startDate) filtered = filtered.filter((e) => e.timestamp >= filters.startDate!);
  if (filters.endDate) filtered = filtered.filter((e) => e.timestamp <= filters.endDate!);
  if (filters.actorId) filtered = filtered.filter((e) => e.actor.id === filters.actorId);
  if (filters.eventType) filtered = filtered.filter((e) => e.type === filters.eventType);
  if (filters.severity) filtered = filtered.filter((e) => e.severity === filters.severity);
  if (filters.resourceType) filtered = filtered.filter((e) => e.resource?.type === filters.resourceType);
  if (filters.resourceId) filtered = filtered.filter((e) => e.resource?.id === filters.resourceId);
  if (filters.result) filtered = filtered.filter((e) => e.result === filters.result);
  filtered.sort((a, b) => b.timestamp.getTime() - a.timestamp.getTime());
  const offset = filters.offset || 0;
  const limit = filters.limit || 100;
  return filtered.slice(offset, offset + limit);
}
```
The stable sort is modelled by `List.insertionSort` over the total preorder
`tsDesc`, and `slice(offset, offset + limit)` by `drop`/`take`. -/
def query (events : List AuditEvent) (filters : AuditQueryFilters) :
    List AuditEvent :=
  let l1 := filterIfSome filters.startDate (fun d e => decide (d ≤ e.timestamp)) events
  let l2 := filterIfSome filters.endDate (fun d e => decide (e.timestamp ≤ d)) l1
  let l3 := filterIfTruthy filters.actorId (fun e => e.actor.id == filters.actorId) l2
  let l4 := filterIfTruthy filters.eventType (fun e => some e.type == filters.eventType) l3
  let l5 := filterIfTruthy filters.severity (fun e => some e.severity == filters.severity) l4
  let l6 := filterIfTruthy filters.resourceType
    (fun e => e.resource.map AuditResource.type == filters.resourceType) l5
  let l7 := filterIfTruthy filters.resourceId
    (fun e => e.resource.bind AuditResource.id == filters.resourceId) l6
  let l8 := filterIfTruthy filters.result (fun e => some e.result == filters.result) l7
  let sorted := List.insertionSort tsDesc l8
  let offset := filters.offset.getD 0
  let limit := match filters.limit with
    | some n => if n = 0 then 100 else n
    | none => 100
  (sorted.drop offset).take limit

theorem filterIfSome_eq (o : Option Int) (p : Int → AuditEvent → Bool)
    (l : List AuditEvent) :
    filterIfSome o p l =
      l.filter (fun e => match o with | some d => p d e | none => true) := by
  cases o <;> simp [filterIfSome]

theorem filterIfTruthy_eq (o : Option String) (p : AuditEvent → Bool)
    (l : List AuditEvent) :
    filterIfTruthy o p l =
      l.filter (fun e => if strTruthy o then p e else true) := by
  cases h : strTruthy o <;> simp [filterIfTruthy, h]

/-- The conjunction of all effectively present filters (a present filter
whose value is falsy — the empty string — imposes no restriction, exactly
as in the code).  Written with the same conditions as the eight filter
passes, innermost pass first. -/
def matchesFilters (f : AuditQueryFilters) (e : AuditEvent) : Bool :=
  (if strTruthy f.result then some e.result == f.result else true) &&
  ((if strTruthy f.resourceId then e.resource.bind AuditResource.id == f.resourceId else true) &&
  ((if strTruthy f.resourceType then e.resource.map AuditResource.type == f.resourceType else true) &&
  ((if strTruthy f.severity then some e.severity == f.severity else true) &&
  ((if strTruthy f.eventType then some e.type == f.eventType else true) &&
  ((if strTruthy f.actorId then e.actor.id == f.actorId else true) &&
  ((match f.endDate with | some d => decide (e.timestamp ≤ d) | none => true) &&
   (match f.startDate with | some d => decide (d ≤ e.timestamp) | none => true)))))))

/-- The fallback `filters.offset || 0`. -/
def effOffset (f : AuditQueryFilters) : Nat := f.offset.getD 0

/-- The fallback `filters.limit || 100`: a missing or zero (falsy) limit becomes 100. -/
def effLimit (f : AuditQueryFilters) : Nat :=
  match f.limit with
  | some n => if n = 0 then 100 else n
  | none => 100

theorem query_eq_filter_sort_paginate (events : List AuditEvent)
    (filters : AuditQueryFilters) :
    query events filters =
      ((List.insertionSort tsDesc (events.filter (matchesFilters filters))).drop
        (effOffset filters)).take (effLimit filters) := by
  simp only [query, filterIfSome_eq, filterIfTruthy_eq, List.filter_filter,
    effOffset, effLimit]
  apply congrArg
  apply congrArg
  apply congrArg
  refine List.filter_congr ?_
  intro e _
  simp only [matchesFilters]
  cases filters.startDate <;> cases filters.endDate <;> rfl

/-- A saved event with actor id `"x"`, used to exhibit the falsy-filter
behaviour of `query`. -/
def cEvent : AuditEvent :=
  { timestamp := 5, type := "custom", severity := "info",
    actor := { id := some "x", type := "user", identifier := "u", roles := none },
    resource := none, action := "a", result := "success", metadata := none,
    ip := none, userAgent := none, requestId := none }

/-- Claim C3, counterexample. An `AuditQueryFilters` value whose `actorId` is
present but equal to the empty string: the claim demands the conjunction
include the restriction `actor.id = ""` (which the stored event fails), but
the code treats the falsy string as absent and returns the event anyway. -/
theorem query_present_empty_actorId_not_restricting :
    query [cEvent] { actorId := some "" } = [cEvent] ∧
    query [cEvent] { actorId := some "" } ≠ [] ∧
    cEvent.actor.id ≠ some "" := by
  refine ⟨rfl, ?_, by decide⟩
  intro h
  rw [show query [cEvent] { actorId := some "" } = [cEvent] from rfl] at h
  exact List.cons_ne_nil _ _ h

/-- Claim C3, amended. For every stored event list and every filter value,
`query` returns exactly the events satisfying the conjunction of all
effectively present filters — where a present-but-falsy filter value (the
empty string; a `limit` of 0) imposes no restriction, just like an absent
one — sorted by descending timestamp, with `offset`/`limit` pagination
(defaults 0 and 100) applied after the sort; the order is strictly
descending whenever the stored timestamps are distinct. -/
theorem query_conjunctive_sorted_paginated (events : List AuditEvent)
    (filters : AuditQueryFilters) :
    query events filters =
      ((List.insertionSort tsDesc (events.filter (matchesFilters filters))).drop
        (effOffset filters)).take (effLimit filters) ∧
    List.Sorted tsDesc (query events filters) ∧
    ((events.map AuditEvent.timestamp).Nodup →
      (query events filters).Pairwise fun a b => b.timestamp < a.timestamp) := by
  refine ⟨query_eq_filter_sort_paginate events filters, ?_, ?_⟩
  · rw [query_eq_filter_sort_paginate]
    exact List.Pairwise.sublist
      ((List.take_sublist _ _).trans (List.drop_sublist _ _))
      (List.sorted_insertionSort tsDesc _)
  · intro hnd
    rw [query_eq_filter_sort_paginate]
    set F := events.filter (matchesFilters filters) with hF
    have hndF : (F.map AuditEvent.timestamp).Nodup :=
      List.Nodup.sublist ((List.filter_sublist _).map _) hnd
    have hndS : ((List.insertionSort tsDesc F).map AuditEvent.timestamp).Nodup :=
      (((List.perm_insertionSort tsDesc F).map _).nodup_iff).mpr hndF
    have hsub2 : List.Sublist
        (((List.insertionSort tsDesc F).drop (effOffset filters)).take
          (effLimit filters)) (List.insertionSort tsDesc F) :=
      (List.take_sublist _ _).trans (List.drop_sublist _ _)
    have hndOut := List.Nodup.sublist (hsub2.map AuditEvent.timestamp) hndS
    have hsorted := List.Pairwise.sublist hsub2 (List.sorted_insertionSort tsDesc F)
    have hne := List.pairwise_map.mp hndOut
    exact (hsorted.and hne).imp fun h => lt_of_le_of_ne h.1 (Ne.symm h.2)

/-- A minimal saved event with the given timestamp. -/
def wEvent (t : Int) : AuditEvent :=
  { timestamp := t, type := "custom", severity := "info",
    actor := { id := none, type := "anonymous", identifier := "u", roles := none },
    resource := none, action := "a", result := "success", metadata := none,
    ip := none, userAgent := none, requestId := none }

/-- Witness for `query_conjunctive_sorted_paginated`: two saved events with
distinct timestamps, queried with no filters, come back in strictly
descending timestamp order. -/
theorem query_conjunctive_sorted_paginated_witness :
    (query [wEvent 1, wEvent 2] {}).Pairwise
      (fun a b => b.timestamp < a.timestamp) :=
  (query_conjunctive_sorted_paginated [wEvent 1, wEvent 2] {}).2.2 (by decide)

/-- Claim C10. A `limit` of 0 is falsy, so `filters.limit || 100` replaces it by
the default 100: a query with limit 0 behaves exactly like one with no
limit, and with no other filters it returns `min 100 n` of the `n` stored
events — not an empty list. -/
theorem query_limit_zero_defaults (events : List AuditEvent)
    (filters : AuditQueryFilters) :
    query events { filters with limit := some 0 } =
      query events { filters with limit := none } ∧
    (query events { limit := some 0 }).length = min 100 events.length := by
  constructor
  · rfl
  · show (((List.insertionSort tsDesc events).drop 0).take 100).length =
      min 100 events.length
    rw [List.drop_zero, List.length_take,
      (List.perm_insertionSort tsDesc events).length_eq]

/-! ### AuditLogger.log

```ts
async log(event: Partial<AuditEvent>): Promise<void> {
  if (!this.enabled) return;
  const fullEvent: AuditEvent = {
    timestamp: new Date(),
    type: event.type || AuditEventType.CUSTOM,
    severity: event.severity || AuditSeverity.INFO,
    actor: event.actor || { type: 'anonymous', identifier: 'unknown' },
    action: event.action || 'unknown',
    result: event.result || 'success',
    resource: event.resource, metadata: event.metadata, ip: event.ip,
    userAgent: event.userAgent, requestId: event.requestId,
  };
  try {
    await this.storage.save(fullEvent);
    // console logging by severity
  } catch (error) {
    logger.error('Failed to save audit event:', error);
  }
}
```
The pluggable storage backend's `save` is a parameter; its promise may
reject (or `save` may throw), modelled by `Except.error`. -/

structure PartialAuditEvent where
  timestamp : Option Int := none
  type : Option String := none
  severity : Option String := none
  actor : Option AuditActor := none
  action : Option String := none
  result : Option String := none
  resource : Option AuditResource := none
  metadata : Option JVal := none
  ip : Option String := none
  userAgent : Option String := none
  requestId : Option String := none

/-- The `fullEvent` construction (the `x || default` fallbacks follow
string truthiness; the partial event's `timestamp` is ignored — the new
event is always stamped with `new Date()`). -/
def buildFullEvent (event : PartialAuditEvent) (now : Int) : AuditEvent :=
  { timestamp := now,
    type := if strTruthy event.type then event.type.getD "" else "custom",
    severity := if strTruthy event.severity then event.severity.getD "" else "info",
    actor := event.actor.getD
      { id := none, type := "anonymous", identifier := "unknown", roles := none },
    action := if strTruthy event.action then event.action.getD "" else "unknown",
    result := if strTruthy event.result then event.result.getD "" else "success",
    resource := event.resource,
    metadata := event.metadata,
    ip := event.ip,
    userAgent := event.userAgent,
    requestId := event.requestId }

/-- The method `AuditLogger.log`.  The returned `Except` is the promise the caller
awaits; both branches of the `try`/`catch` resolve it. -/
def auditLoggerLog (enabled : Bool) (save : AuditEvent → Except String Unit)
    (event : PartialAuditEvent) (now : Int) : Except String Unit :=
  if !enabled then Except.ok ()
  else
    match save (buildFullEvent event now) with
    | .ok _ => Except.ok ()
    | .error _ => Except.ok ()

/-- Claim C6. The method `AuditLogger.log` never propagates a storage failure: for every
event, every clock value, whether or not logging is enabled, and every
storage backend — including every backend whose `save` rejects or throws —
the promise returned by `log` resolves normally. -/
theorem auditLoggerLog_never_fails (enabled : Bool)
    (save : AuditEvent → Except String Unit) (event : PartialAuditEvent)
    (now : Int) : auditLoggerLog enabled save event now = Except.ok () := by
  unfold auditLoggerLog
  split
  · rfl
  · split <;> rfl
